import Mathlib

/-!
Verification of the feishu_Claude service core against its specification.

The source under scrutiny:
* `server/claude-cli.js` — `queryClaude`, the module-level
  `activeClaudeProcesses` map (the SessionRegistry), `abortClaudeSession`,
  `isClaudeSessionActive`;
* `server/lib/feishu-session.js` — `FeishuSessionManager.getOrCreateSession`,
  `isSessionBusy`;
* `server/lib/feishu-message-writer.js` — `FeishuMessageWriter.send`,
  `flush`, `splitMessage`, `appendText`, `complete`;
* `server/feishu-ws.js` — `FeishuService.start`, `handleMessage`.

JavaScript strings are modelled as `List Char`; the examples exercised by
the claims are ASCII, so the UTF-16 code-unit/Unicode scalar distinction
does not arise.  JS `Map` objects are modelled as association lists where
`set` replaces any existing entry for the key, matching `Map.set` semantics.
-/

namespace FeishuClaude

/-! ## SessionRegistry: the `activeClaudeProcesses` map (claude-cli.js line 10)

A live process handle is identified by a numeric tag; the registry maps a
process-session key to the handle, exactly one entry per key, because JS
`Map.set` overwrites the previous value bound to an equal key. -/

/-- The in-memory registry `activeClaudeProcesses : Map<string, ChildProcess>`. -/
abbrev Registry := List (String × Nat)

/-- `Map.get` / `Map.has` lookup semantics. -/
def regLookup (m : Registry) (k : String) : Option Nat :=
  (m.find? (fun e => e.1 == k)).map (fun e => e.2)

/-- `Map.delete k`: removes the binding for `k` (a JS map holds at most one). -/
def regDel (m : Registry) (k : String) : Registry :=
  m.filter (fun e => !(e.1 == k))

/-- `Map.set k v`: binds `k` to `v`, replacing any previous binding of `k`. -/
def regSet (m : Registry) (k : String) (v : Nat) : Registry :=
  (k, v) :: regDel m k

/-- Number of live handles registered under key `k`. -/
def countKey (m : Registry) (k : String) : Nat :=
  (m.filter (fun e => e.1 == k)).length

/-- `isClaudeSessionActive` (claude-cli.js lines 304-306):
`activeClaudeProcesses.has(sessionId)`. -/
def isClaudeSessionActive (m : Registry) (sessionId : String) : Bool :=
  (regLookup m sessionId).isSome

/-- The registry mutations the source performs, each one synchronous
(no suspension point inside a step):
* `register`: `activeClaudeProcesses.set(processKey, claudeProcess)` at spawn
  (claude-cli.js lines 130-131);
* `rekey`: on the first `init` event, `delete(processKey)` immediately
  followed by `set(capturedSessionId, claudeProcess)`
  (claude-cli.js lines 155-158);
* `unregister`: `delete(finalSessionId)` in the `close`/`error` handlers
  (lines 240-241, 277-278) and in `abortClaudeSession` (line 298). -/
inductive RegOp where
  | register (k : String) (h : Nat)
  | rekey (oldKey newKey : String) (h : Nat)
  | unregister (k : String)

/-- Apply one registry mutation. -/
def applyOp (m : Registry) : RegOp → Registry
  | .register k h => regSet m k h
  | .rekey oldKey newKey h => regSet (regDel m oldKey) newKey h
  | .unregister k => regDel m k

/-- Replay an interleaving of registry mutations from the empty registry
(the state at service start: the map is module-level and in-memory only). -/
def applyOps (ops : List RegOp) : Registry :=
  ops.foldl applyOp []

/-! ## ProcessRunner: `queryClaude` (claude-cli.js lines 28-291) -/

/-- The command line built by `queryClaude` (claude-cli.js lines 42-87).
`command` is the prompt text; the JS truthiness test `command && command.trim()`
is the check that the trimmed prompt is nonempty.  `skipPermissions` is the
effective value of `skipPermissions || settings.skipPermissions`. -/
def buildArgs (command : String) (sessionId : Option String)
    (permissionMode : Option String) (skipPermissions : Bool)
    (allowedTools disallowedTools : List String) (model : Option String) :
    List String :=
  [("-p")]
    ++ (match sessionId with
        | some sid => [("--resume=") ++ sid]
        | none => [])
    ++ (if command.trim ≠ ("") then
          [("--output-format"), ("stream-json"), ("--verbose")]
        else [])
    ++ (match permissionMode with
        | some pm => if pm ≠ ("default") then [("--permission-mode"), pm] else []
        | none => [])
    ++ (if skipPermissions then [("--dangerously-skip-permissions")] else [])
    ++ (if allowedTools ≠ [] then
          [("--allowed-tools"), String.intercalate (",") allowedTools]
        else [])
    ++ (if disallowedTools ≠ [] then
          [("--disallowed-tools"), String.intercalate (",") disallowedTools]
        else [])
    ++ (match model with
        | some m => [("--model"), m]
        | none => [])
    ++ (if command.trim ≠ ("") then [command] else [])

/-- The rejection message built in the `close` handler (claude-cli.js
line 268): the template literal renders a `null` exit code as the string
"null". -/
def closeErrorMessage (code : Option Int) : String :=
  ("Claude CLI exited with code ") ++ (match code with
    | none => ("null")
    | some k => toString k)

/-- Terminal outcome of an invocation as decided by the `close` handler
(claude-cli.js lines 236-270).  Node fires `close` with `(code, signal)`;
the source handler `async (code) => ...` binds only `code`, so the signal
never reaches the outcome: a signal-terminated exit has `code = null`. -/
def closeEventOutcome (code : Option Int) (_signal : Option String) :
    Except String Unit :=
  if code = some 0 then Except.ok () else Except.error (closeErrorMessage code)

/-- The registry-relevant state of one `queryClaude` invocation. -/
structure Invocation where
  sessionId : Option String
  processKey : String
  handle : Nat
  captured : Option String
  reg : Registry

/-- Spawn-time setup (claude-cli.js lines 28-131): `capturedSessionId`
starts as the caller-supplied `options.sessionId`; the provisional key is
`capturedSessionId || Date.now().toString()` and the process is registered
under it immediately at line 131, before any stdout is seen. -/
def spawnInvocation (sessionId : Option String) (timestampKey : String)
    (h : Nat) (reg₀ : Registry) : Invocation :=
  let processKey := sessionId.getD timestampKey
  { sessionId := sessionId, processKey := processKey, handle := h,
    captured := sessionId, reg := regSet reg₀ processKey h }

/-- Effect of one parsed stdout line on the invocation (claude-cli.js lines
146-176): only a `system`/`init` record carrying a `session_id` acts, and
only when no session id has been captured yet; the rekey deletes the
provisional key and re-registers under the revealed id with no suspension
point in between (lines 155-158).  `line = none` stands for any stdout
record that is not an id-carrying init. -/
def initStep (s : Invocation) (line : Option String) : Invocation :=
  match line with
  | none => s
  | some sid =>
    if s.captured = none then
      if s.processKey ≠ sid then
        { s with captured := some sid,
                 reg := regSet (regDel s.reg s.processKey) sid s.handle }
      else { s with captured := some sid }
    else s

/-- `finalSessionId = capturedSessionId || sessionId || processKey`
(claude-cli.js lines 240 and 277). -/
def finalSessionId (s : Invocation) : String :=
  s.captured.getD (s.sessionId.getD s.processKey)

/-- The key the invocation's live handle is currently registered under:
the provisional key until an `init` event reveals the real session id. -/
def invocationKey (s : Invocation) : String :=
  s.captured.getD s.processKey

/-- Registry cleanup performed by the `close` and `error` handlers before
the promise settles (claude-cli.js lines 240-241 and 277-278):
`activeClaudeProcesses.delete(finalSessionId)`. -/
def closeCleanup (s : Invocation) : Invocation :=
  { s with reg := regDel s.reg (finalSessionId s) }

/-- One whole invocation: spawn, any stream of stdout lines, then the
settling close/error handler. -/
def runInvocation (sessionId : Option String) (timestampKey : String)
    (h : Nat) (reg₀ : Registry) (lines : List (Option String)) : Invocation :=
  closeCleanup (lines.foldl initStep (spawnInvocation sessionId timestampKey h reg₀))

/-- The two mutable flags of the `session-created` emission logic
(claude-cli.js lines 31-32). -/
structure QState where
  captured : Option String
  sent : Bool

/-- `capturedSessionId = sessionId; sessionCreatedSent = false`. -/
def qInit (sessionId : Option String) : QState :=
  { captured := sessionId, sent := false }

/-- One parsed stdout line of the emission logic (claude-cli.js lines
146-175): returns the new state and whether a `session-created` event was
sent on this line (`!sessionId && !sessionCreatedSent` guard at line 166). -/
def sessionCreatedStep (sessionId : Option String) (s : QState)
    (line : Option String) : QState × Bool :=
  match line with
  | none => (s, false)
  | some sid =>
    if s.captured = none then
      if sessionId = none ∧ s.sent = false then
        ({ captured := some sid, sent := true }, true)
      else ({ captured := some sid, sent := s.sent }, false)
    else (s, false)

def emitTraceAux (sessionId : Option String) (s : QState) :
    List (Option String) → List Bool
  | [] => []
  | line :: rest =>
    (sessionCreatedStep sessionId s line).2
      :: emitTraceAux sessionId (sessionCreatedStep sessionId s line).1 rest

/-- Per-line trace of `session-created` emissions over a stdout stream. -/
def emitTrace (sessionId : Option String) (lines : List (Option String)) :
    List Bool :=
  emitTraceAux sessionId (qInit sessionId) lines

/-- Plain list-of-characters check that `needle` occurs at the start of
`hay` (used to decide whether a signal name occurs in an error message). -/
def leadsWith : List Char → List Char → Bool
  | [], _ => true
  | _ :: _, [] => false
  | a :: as, b :: bs => a == b && leadsWith as bs

/-- Whether `needle` occurs contiguously anywhere inside `hay`. -/
def occursIn (needle : List Char) : List Char → Bool
  | [] => needle.isEmpty
  | h :: t => leadsWith needle (h :: t) || occursIn needle t

/-- Modelled from the spec's words, for comparison with `emitTrace`:
"a one-time created signal the first time an init event carries a session
id" — the trace that is true exactly at the first id-carrying line and
false everywhere else. -/
def markFirstInit : List (Option String) → List Bool
  | [] => []
  | line :: rest =>
    if line.isSome then true :: List.replicate rest.length false
    else false :: markFirstInit rest

/-! ## OutputAggregator: `FeishuMessageWriter` (feishu-message-writer.js) -/

/-- `String.prototype.lastIndexOf(c, fromIndex)` on a JS string modelled as
`List Char`: the greatest index `≤ fromIndex` at which `c` occurs, or `-1`.
Implemented as a forward scan that remembers the latest match and stops
once the scan index passes `fromIdx`. -/
def lastIndexOfAux (c : Char) (fromIdx : Nat) : List Char → Nat → Int → Int
  | [], _, best => best
  | x :: xs, i, best =>
    if fromIdx < i then best
    else lastIndexOfAux c fromIdx xs (i + 1) (if x = c then (i : Int) else best)

def lastIndexOfFrom (c : Char) (fromIdx : Nat) (l : List Char) : Int :=
  lastIndexOfAux c fromIdx l 0 (-1)

/-- The split position chosen by one iteration of `splitMessage`'s loop
(feishu-message-writer.js lines 234-243).  The JS comparison
`index > maxLength * 0.8` on an integer `index` is rendered as
`5 * index > 4 * maxLength`, which is exact at the 5000-character bound the
spec exercises (`5000 * 0.8` is the double `4000.0`). -/
def splitIndexOf (remaining : List Char) (maxLength : Nat) : Nat :=
  if 5 * lastIndexOfFrom ('\n') maxLength remaining > 4 * (maxLength : Int) then
    (lastIndexOfFrom ('\n') maxLength remaining + 1).toNat
  else if 5 * lastIndexOfFrom (' ') maxLength remaining > 4 * (maxLength : Int) then
    (lastIndexOfFrom (' ') maxLength remaining + 1).toNat
  else maxLength

/-- The `while (remaining.length > 0)` loop of `splitMessage`
(feishu-message-writer.js lines 228-247).  With `maxLength = 0` the JS loop
would never terminate (the split index degenerates to 0); that branch,
unreachable for every bound the source uses, returns `[]` here. -/
def splitGo (maxLength : Nat) (remaining : List Char) : List (List Char) :=
  if _h0 : remaining.length = 0 then []
  else if _hle : remaining.length ≤ maxLength then [remaining]
  else if _hz : splitIndexOf remaining maxLength = 0 then []
  else
    remaining.take (splitIndexOf remaining maxLength)
      :: splitGo maxLength (remaining.drop (splitIndexOf remaining maxLength))
termination_by remaining.length
decreasing_by
  simp_wf
  omega

/-- `FeishuMessageWriter.splitMessage(text, maxLength = 5000)`
(feishu-message-writer.js lines 220-250). -/
def splitMessage (text : List Char) (maxLength : Nat) : List (List Char) :=
  if text.length ≤ maxLength then [text] else splitGo maxLength text

/-- The buffer of a `FeishuMessageWriter`, for the flush/append protocol. -/
structure WriterBuf where
  buffer : List Char

/-- `appendText` (feishu-message-writer.js lines 147-150):
`this.buffer += text`. -/
def appendText (w : WriterBuf) (text : List Char) : WriterBuf :=
  { buffer := w.buffer ++ text }

/-- The swap at the head of `flush` (lines 189-190): capture the buffer and
clear it, with no suspension point between the read and the clear. -/
def flushSwap (w : WriterBuf) : List Char × WriterBuf :=
  (w.buffer, { buffer := [] })

/-- The `catch` branch of `flush` (line 212): the captured text goes back in
front of the live buffer, `this.buffer = textToSend + this.buffer`. -/
def flushCatch (textToSend : List Char) (w : WriterBuf) : WriterBuf :=
  { buffer := textToSend ++ w.buffer }

/-- One failed flush cycle: the swap, then the appends that interleave with
the awaited chunk sends (`appendsDuring`, one entry per `appendText` call
that lands between the swap and the failure), then the catch branch. -/
def flushFailedRun (w : WriterBuf) (appendsDuring : List (List Char)) :
    WriterBuf :=
  flushCatch (flushSwap w).1 (appendsDuring.foldl appendText (flushSwap w).2)

/-- The full mutable state of a `FeishuMessageWriter` that `send` touches. -/
structure WriterState where
  buffer : List Char
  sessionId : Option String
  isCompleted : Bool

def appendTextW (w : WriterState) (text : List Char) : WriterState :=
  { w with buffer := w.buffer ++ text }

/-- One block of an assistant message's `content` array. -/
inductive ContentBlock where
  | textBlock (text : List Char)
  | otherBlock

/-- The `data` payload of a `claude-response` message, keyed by its `type`
discriminator (feishu-message-writer.js lines 85-125). -/
inductive RespData where
  | assistantMsg (content : Option (List ContentBlock)) (text : Option (List Char))
  | deltaMsg (delta : Option (List Char)) (text : Option (List Char))
  | resultMsg
  | otherData

/-- One payload handed to `FeishuMessageWriter.send` by `queryClaude`.
`malformed` stands for a string `JSON.parse` rejects (SyntaxError);
`nullJson` for valid JSON whose value is not an object, so reading
`message.type` raises a TypeError. -/
inductive WsPayload where
  | malformed
  | nullJson
  | sessionCreated (sessionId : Option String)
  | claudeResponse (data : Option RespData)
  | claudeOutput (data : Option (List Char))
  | claudeError (error : List Char)
  | unknownType

/-- `handleSessionCreated` (lines 75-80). -/
def handleSessionCreated (w : WriterState) (sid : Option String) : WriterState :=
  match sid with
  | some s => { w with sessionId := some s }
  | none => w

/-- `handleClaudeResponse` (lines 85-125). -/
def handleClaudeResponse (w : WriterState) (d : Option RespData) : WriterState :=
  match d with
  | none => w
  | some (RespData.assistantMsg content text) =>
    match content with
    | some blocks =>
      blocks.foldl (fun w b =>
        match b with
        | ContentBlock.textBlock t => appendTextW w t
        | ContentBlock.otherBlock => w) w
    | none =>
      match text with
      | some t => appendTextW w t
      | none => w
  | some (RespData.deltaMsg delta text) =>
    match delta with
    | some t => appendTextW w t
    | none =>
      match text with
      | some t => appendTextW w t
      | none => w
  | some RespData.resultMsg => { w with isCompleted := true }
  | some RespData.otherData => w

/-- `handleClaudeOutput` (lines 130-134). -/
def handleClaudeOutput (w : WriterState) (d : Option (List Char)) : WriterState :=
  match d with
  | some t => appendTextW w t
  | none => w

/-- `handleError` (lines 139-142). -/
def handleError (w : WriterState) (e : List Char) : WriterState :=
  appendTextW w ((("\n⚠️ Error: ").toList) ++ e ++ (("\n").toList))

/-- `flushIfNeeded` (lines 155-175), which only compares sizes and times,
triggers a flush, or arms the timer — it cannot raise.  The elapsed-time
trigger is abstracted as `timeDue`; `flush` — an async method with its own
internal try/catch, see the C6 development — is represented by its
synchronous buffer effect: on success the swap empties the buffer, on
failure the catch restores it (no append interleaves within this
synchronous call). -/
def flushIfNeededW (w : WriterState) (timeDue deliveryFails : Bool) :
    WriterState :=
  if timeDue ∨ 2000 ≤ w.buffer.length then
    if w.buffer.length = 0 then w
    else if deliveryFails then w
    else { w with buffer := [] }
  else w

/-- The try-block of `send` (feishu-message-writer.js lines 38-65): parse
the payload, dispatch on `message.type`, then `flushIfNeeded`.  A raised
exception is an `Except.error`. -/
def sendTry (w : WriterState) (p : WsPayload) (timeDue deliveryFails : Bool) :
    Except String WriterState :=
  match p with
  | WsPayload.malformed => Except.error ("Unexpected token in JSON")
  | WsPayload.nullJson => Except.error ("Cannot read properties of null")
  | WsPayload.sessionCreated sid =>
    Except.ok (flushIfNeededW (handleSessionCreated w sid) timeDue deliveryFails)
  | WsPayload.claudeResponse d =>
    Except.ok (flushIfNeededW (handleClaudeResponse w d) timeDue deliveryFails)
  | WsPayload.claudeOutput d =>
    Except.ok (flushIfNeededW (handleClaudeOutput w d) timeDue deliveryFails)
  | WsPayload.claudeError e =>
    Except.ok (flushIfNeededW (handleError w e) timeDue deliveryFails)
  | WsPayload.unknownType =>
    Except.ok (flushIfNeededW w timeDue deliveryFails)

/-- `send` (lines 37-70): the whole body sits inside one try/catch whose
catch only logs (`console.error`) and rethrows nothing, so the method
returns normally on every input. -/
def send (w : WriterState) (p : WsPayload) (timeDue deliveryFails : Bool) :
    Except String WriterState :=
  match sendTry w p timeDue deliveryFails with
  | Except.ok w' => Except.ok w'
  | Except.error _ => Except.ok w

/-! ## SessionManager: `FeishuSessionManager` (feishu-session.js) and
`FeishuService.start` (feishu-ws.js) -/

/-- A row of the `feishu_sessions` table, restricted to the fields the
claims touch. -/
structure SessionRecord where
  rowId : Nat
  conversationId : String
  claude_session_id : Option String
  lastActivity : Nat
deriving DecidableEq

/-- The persisted session store. -/
abbrev Store := List SessionRecord

/-- `feishuDb.getSession(conversationId)`. -/
def getSessionRecord (store : Store) (conv : String) : Option SessionRecord :=
  store.find? (fun r => r.conversationId == conv)

/-- `feishuDb.updateSessionActivity(session.id)` at time `now`. -/
def updateSessionActivity (store : Store) (rid : Nat) (now : Nat) : Store :=
  store.map (fun r => if r.rowId == rid then { r with lastActivity := now } else r)

/-- `FeishuSessionManager.getOrCreateSession` (feishu-session.js lines
112-169).  Present record: update last activity and return the record as
fetched — the stored `claude_session_id` is neither validated against the
registry nor cleared.  Absent record: provision the project directory, git
repository and catalog entry (external, log-and-continue side effects not
modelled) and insert a fresh record with `claude_session_id = null`. -/
def getOrCreateSession (store : Store) (conv : String) (now : Nat)
    (freshId : Nat) : SessionRecord × Store :=
  match getSessionRecord store conv with
  | some session => (session, updateSessionActivity store session.rowId now)
  | none =>
    let record : SessionRecord :=
      { rowId := freshId, conversationId := conv,
        claude_session_id := none, lastActivity := now }
    (record, store ++ [record])

/-- `FeishuSessionManager.isSessionBusy` (feishu-session.js lines 174-187). -/
def isSessionBusy (reg : Registry) (session : Option SessionRecord) : Bool :=
  match session with
  | none => false
  | some s =>
    match s.claude_session_id with
    | none => false
    | some cid => isClaudeSessionActive reg cid

/-- `FeishuService.start` (feishu-ws.js lines 79-109): loads configuration,
constructs the `FeishuSessionManager` and the `FeishuClient`, and starts the
client with the message handler.  None of these steps reads or writes any
persisted `claude_session_id`, so the effect of startup on the session
store is the identity — in particular no clear-all operation runs before
traffic is accepted. -/
def serviceStartStoreEffect (store : Store) : Store :=
  store

end FeishuClaude

namespace FeishuClaude

theorem countKey_cons (e : String × Nat) (m : Registry) (k : String) :
    countKey (e :: m) k = (if e.1 = k then 1 else 0) + countKey m k := by
  by_cases h : e.1 = k
  · simp [countKey, List.filter_cons, h]
    omega
  · simp [countKey, List.filter_cons, h]

theorem regDel_cons (e : String × Nat) (m : Registry) (k : String) :
    regDel (e :: m) k = if e.1 = k then regDel m k else e :: regDel m k := by
  by_cases h : e.1 = k <;> simp [regDel, List.filter_cons, h]

theorem countKey_regDel_self (m : Registry) (k : String) :
    countKey (regDel m k) k = 0 := by
  induction m with
  | nil => rfl
  | cons e m ih =>
    rw [regDel_cons]
    by_cases h : e.1 = k
    · rw [if_pos h]; exact ih
    · rw [if_neg h, countKey_cons, if_neg h, ih]

theorem countKey_regDel_le (m : Registry) (k k' : String) :
    countKey (regDel m k') k ≤ countKey m k := by
  induction m with
  | nil => exact Nat.le_refl 0
  | cons e m ih =>
    rw [regDel_cons]
    by_cases h : e.1 = k'
    · rw [if_pos h, countKey_cons]
      omega
    · rw [if_neg h, countKey_cons, countKey_cons]
      omega

theorem countKey_regSet_self (m : Registry) (k : String) (v : Nat) :
    countKey (regSet m k v) k = 1 := by
  rw [regSet, countKey_cons, if_pos rfl, countKey_regDel_self]

theorem countKey_regSet_le (m : Registry) (k k' : String) (v : Nat)
    (hm : countKey m k ≤ 1) : countKey (regSet m k' v) k ≤ 1 := by
  by_cases h : k' = k
  · subst h
    rw [countKey_regSet_self]
  · rw [regSet, countKey_cons, if_neg h]
    have := countKey_regDel_le m k k'
    omega

theorem countKey_applyOp (m : Registry) (op : RegOp) (k : String)
    (hm : ∀ k', countKey m k' ≤ 1) : countKey (applyOp m op) k ≤ 1 := by
  cases op with
  | register k' h =>
    exact countKey_regSet_le m k k' h (hm k)
  | rekey oldKey newKey h =>
    refine countKey_regSet_le (regDel m oldKey) k newKey h ?_
    exact Nat.le_trans (countKey_regDel_le m k oldKey) (hm k)
  | unregister k' =>
    exact Nat.le_trans (countKey_regDel_le m k k') (hm k)

theorem countKey_applyOps_aux (ops : List RegOp) :
    ∀ (m : Registry), (∀ k', countKey m k' ≤ 1) →
      ∀ k, countKey (ops.foldl applyOp m) k ≤ 1 := by
  induction ops with
  | nil => intro m hm k; simpa using hm k
  | cons op ops ih =>
    intro m hm k
    exact ih (applyOp m op) (fun k' => countKey_applyOp m op k' hm) k

/-- C4.  At every state of the SessionRegistry reachable by any interleaving
of the registry mutations the source performs (register at spawn, the atomic
rekey on the first `init` event, and unregister on close/error/abort), each
session key is bound to at most one live process handle. -/
theorem registry_at_most_one_handle_per_key (ops : List RegOp) (k : String) :
    countKey (applyOps ops) k ≤ 1 := by
  have h0 : ∀ k', countKey ([] : Registry) k' ≤ 1 := by
    intro k'; simp [countKey]
  exact countKey_applyOps_aux ops [] h0 k

theorem regLookup_cons (e : String × Nat) (m : Registry) (k : String) :
    regLookup (e :: m) k = if e.1 = k then some e.2 else regLookup m k := by
  by_cases h : e.1 = k <;> simp [regLookup, List.find?_cons, h]

theorem regLookup_regDel_self (m : Registry) (k : String) :
    regLookup (regDel m k) k = none := by
  induction m with
  | nil => rfl
  | cons e m ih =>
    rw [regDel_cons]
    by_cases h : e.1 = k
    · rw [if_pos h]; exact ih
    · rw [if_neg h, regLookup_cons, if_neg h]; exact ih

/-- C1, evaluation at the failing input.  A signal-terminated exit reaches
the `close` handler with `code = null` and `signal = "SIGTERM"` (this is what
`abortClaudeSession`'s `kill('SIGTERM')` produces); the handler rejects with
the bare message "Claude CLI exited with code null", which does not name the
signal — contradicting the claim and the repository's own README and RCA
documents, which state that signal handling is implemented. -/
theorem claude_cli_close_null_code_message :
    closeEventOutcome none (some ("SIGTERM"))
        = Except.error ("Claude CLI exited with code null")
    ∧ (occursIn (("SIGTERM").toList) (("Claude CLI exited with code null").toList)
        = false)
    ∧ closeEventOutcome (some 0) (some ("SIGTERM")) = Except.ok ()
    ∧ closeEventOutcome (some 1) none
        = Except.error ("Claude CLI exited with code 1") := by
  refine ⟨?_, by decide, rfl, ?_⟩
  · simp [closeEventOutcome, closeErrorMessage]
  · simp [closeEventOutcome, closeErrorMessage]
    rfl

theorem initStep_fields (s : Invocation) (line : Option String) :
    (initStep s line).sessionId = s.sessionId
    ∧ (initStep s line).processKey = s.processKey := by
  cases line with
  | none => exact ⟨rfl, rfl⟩
  | some sid =>
    by_cases hc : s.captured = none
    · by_cases hk : s.processKey ≠ sid <;> simp [initStep, hc, hk]
    · simp [initStep, hc]

theorem initStep_invariant (s : Invocation) (line : Option String)
    (hP : s.captured = none → s.sessionId = none) :
    (initStep s line).captured = none → (initStep s line).sessionId = none := by
  cases line with
  | none => exact hP
  | some sid =>
    by_cases hc : s.captured = none
    · by_cases hk : s.processKey ≠ sid <;> simp [initStep, hc, hk]
    · simp only [initStep, hc, if_false]
      exact False.elim

theorem foldl_initStep_invariant (lines : List (Option String)) :
    ∀ s : Invocation, (s.captured = none → s.sessionId = none) →
      ((lines.foldl initStep s).captured = none →
        (lines.foldl initStep s).sessionId = none) := by
  induction lines with
  | nil => intro s hP; exact hP
  | cons line rest ih =>
    intro s hP
    exact ih (initStep s line) (initStep_invariant s line hP)

theorem finalSessionId_eq_invocationKey (s : Invocation)
    (hP : s.captured = none → s.sessionId = none) :
    finalSessionId s = invocationKey s := by
  cases hcap : s.captured with
  | some c => simp [finalSessionId, invocationKey, hcap]
  | none => simp [finalSessionId, invocationKey, hcap, hP hcap]

/-- C9.  Once an invocation settles (its `close` or `error` handler has
run), the registry holds no entry under the invocation's then-current key —
captured id, caller-supplied id, or provisional timestamp key alike — so a
finished invocation can never make `isClaudeSessionActive` report true. -/
theorem invocation_close_clears_registry_entry (sessionId : Option String)
    (timestampKey : String) (h : Nat) (reg₀ : Registry)
    (lines : List (Option String)) :
    isClaudeSessionActive (runInvocation sessionId timestampKey h reg₀ lines).reg
      (invocationKey (runInvocation sessionId timestampKey h reg₀ lines)) = false := by
  have hP : (lines.foldl initStep (spawnInvocation sessionId timestampKey h reg₀)).captured = none →
      (lines.foldl initStep (spawnInvocation sessionId timestampKey h reg₀)).sessionId = none := by
    apply foldl_initStep_invariant
    intro hc
    simpa [spawnInvocation] using hc
  have hkey : invocationKey (runInvocation sessionId timestampKey h reg₀ lines)
      = finalSessionId (lines.foldl initStep (spawnInvocation sessionId timestampKey h reg₀)) := by
    rw [finalSessionId_eq_invocationKey _ hP]
    rfl
  rw [hkey]
  show isClaudeSessionActive
    (regDel (lines.foldl initStep (spawnInvocation sessionId timestampKey h reg₀)).reg
      (finalSessionId (lines.foldl initStep (spawnInvocation sessionId timestampKey h reg₀))))
    (finalSessionId (lines.foldl initStep (spawnInvocation sessionId timestampKey h reg₀))) = false
  rw [isClaudeSessionActive, regLookup_regDel_self]
  rfl

theorem emitTraceAux_captured_some (sessionId : Option String) :
    ∀ (lines : List (Option String)) (s : QState), s.captured.isSome →
      emitTraceAux sessionId s lines = List.replicate lines.length false := by
  intro lines
  induction lines with
  | nil => intro s _; rfl
  | cons line rest ih =>
    intro s hs
    obtain ⟨c, hc⟩ := Option.isSome_iff_exists.mp hs
    cases line with
    | none =>
      simp [emitTraceAux, sessionCreatedStep, List.replicate_succ]
      exact ih s hs
    | some sid =>
      simp [emitTraceAux, sessionCreatedStep, hc, List.replicate_succ]
      exact ih s hs

theorem emitTraceAux_fresh (lines : List (Option String)) :
    emitTraceAux none { captured := none, sent := false } lines
      = markFirstInit lines := by
  induction lines with
  | nil => rfl
  | cons line rest ih =>
    cases line with
    | none =>
      simp [emitTraceAux, sessionCreatedStep, markFirstInit]
      exact ih
    | some sid =>
      simp [emitTraceAux, sessionCreatedStep, markFirstInit]
      exact emitTraceAux_captured_some none rest
        { captured := some sid, sent := true } rfl

/-- C8.  With no caller-supplied session id, the `session-created` emission
trace is true exactly at the first init line that carries a session id and
false everywhere else (one-time emission, never twice).  With a supplied id
`sid`, the built command line carries `--resume=sid` and no
`session-created` event is ever emitted. -/
theorem query_claude_created_once_and_resume_flag
    (lines : List (Option String)) (sid : String) (command : String)
    (permissionMode : Option String) (skipPermissions : Bool)
    (allowedTools disallowedTools : List String) (model : Option String) :
    emitTrace none lines = markFirstInit lines
    ∧ (("--resume=") ++ sid) ∈ buildArgs command (some sid) permissionMode
        skipPermissions allowedTools disallowedTools model
    ∧ emitTrace (some sid) lines = List.replicate lines.length false := by
  refine ⟨emitTraceAux_fresh lines, ?_, ?_⟩
  · simp [buildArgs]
  · exact emitTraceAux_captured_some (some sid) lines (qInit (some sid)) rfl

/-- C2, evaluation at the failing input.  A persisted record for
conversation "c1" carries the stale id "s1" while the registry is empty
(the post-restart state).  `getOrCreateSession` returns the record with the
id intact and leaves the stored id untouched — the stale-reference healing
the claim describes does not happen — even though `isSessionBusy` on the
returned record is false.  The repository's own RCA document records this
exact defect (feishu-session.js lines 112-129, 缺陷 #2) and claims a fix
that is not present in the source. -/
theorem session_manager_stale_id_not_cleared :
    (getOrCreateSession [⟨1, ("c1"), some ("s1"), 0⟩] ("c1") 7 2).1.claude_session_id
        = some ("s1")
    ∧ ((getSessionRecord (getOrCreateSession [⟨1, ("c1"), some ("s1"), 0⟩] ("c1") 7 2).2
          ("c1")).map (fun r => r.claude_session_id)) = some (some ("s1"))
    ∧ isSessionBusy [] (some (getOrCreateSession [⟨1, ("c1"), some ("s1"), 0⟩] ("c1") 7 2).1)
        = false := by
  refine ⟨by decide, by decide, by decide⟩

/-- C3, evaluation at the failing input.  At startup, with a persisted
record still carrying the id "s1", `FeishuService.start` leaves the store —
and in particular every stored `claude_session_id` — exactly as it found
it: no unconditional clearing happens before traffic is accepted.  The
repository's own RCA document records this defect (feishu-ws.js, 缺陷 #1)
and the README claims a `clearAllClaudeSessionIds()` startup call that is
not present in the source. -/
theorem service_start_keeps_session_ids :
    serviceStartStoreEffect [⟨1, ("c1"), some ("s1"), 0⟩]
        = [⟨1, ("c1"), some ("s1"), 0⟩]
    ∧ ((serviceStartStoreEffect [⟨1, ("c1"), some ("s1"), 0⟩]).map
        (fun r => r.claude_session_id)) = [some ("s1")] := by
  refine ⟨rfl, rfl⟩

theorem foldl_appendText (ts : List (List Char)) :
    ∀ w : WriterBuf, (ts.foldl appendText w).buffer = w.buffer ++ ts.flatten := by
  induction ts with
  | nil => intro w; simp
  | cons t ts ih =>
    intro w
    rw [List.foldl_cons, ih (appendText w t)]
    simp [appendText]

/-- C6.  When a flush's delivery fails, the entire captured text is
prepended to whatever the live buffer accumulated between the swap and the
failure, so order is preserved and nothing is dropped; the whole text is
back in the buffer for the next flush cycle.  (`c :: rest` is the nonempty
buffer the flush captured — `flush` returns early on an empty buffer, so a
failing delivery always has a nonempty capture.) -/
theorem flush_failure_prepends_captured_text (c : Char) (rest : List Char)
    (appendsDuring : List (List Char)) :
    (flushFailedRun { buffer := c :: rest } appendsDuring).buffer
      = (c :: rest) ++ appendsDuring.flatten := by
  simp [flushFailedRun, flushSwap, flushCatch, foldl_appendText]

theorem lastIndexOfAux_le (c : Char) (fromIdx : Nat) :
    ∀ (l : List Char) (i : Nat) (best : Int), best ≤ (fromIdx : Int) →
      lastIndexOfAux c fromIdx l i best ≤ (fromIdx : Int) := by
  intro l
  induction l with
  | nil => intro i best h; exact h
  | cons x xs ih =>
    intro i best h
    rw [lastIndexOfAux]
    by_cases hi : fromIdx < i
    · rw [if_pos hi]; exact h
    · rw [if_neg hi]
      apply ih
      by_cases hx : x = c
      · rw [if_pos hx]
        exact_mod_cast Nat.le_of_not_lt hi
      · rw [if_neg hx]; exact h

theorem lastIndexOfFrom_le (c : Char) (fromIdx : Nat) (l : List Char) :
    lastIndexOfFrom c fromIdx l ≤ (fromIdx : Int) := by
  apply lastIndexOfAux_le
  omega

theorem lastIndexOfAux_exit (c : Char) (fromIdx : Nat) (l : List Char)
    (i : Nat) (best : Int) (h : fromIdx < i) :
    lastIndexOfAux c fromIdx l i best = best := by
  cases l with
  | nil => rfl
  | cons x xs => rw [lastIndexOfAux, if_pos h]

theorem lastIndexOfAux_not_mem (c : Char) (fromIdx : Nat) :
    ∀ (l : List Char) (i : Nat) (best : Int), c ∉ l →
      lastIndexOfAux c fromIdx l i best = best := by
  intro l
  induction l with
  | nil => intro i best _; rfl
  | cons x xs ih =>
    intro i best hmem
    have hx : ¬ x = c := by
      intro hx
      subst hx
      exact hmem (List.mem_cons_self x xs)
    rw [lastIndexOfAux]
    by_cases hi : fromIdx < i
    · rw [if_pos hi]
    · rw [if_neg hi, if_neg hx]
      exact ih (i + 1) best (fun hm => hmem (List.mem_cons_of_mem x hm))

theorem lastIndexOfAux_append (c : Char) (fromIdx : Nat) :
    ∀ (l₁ l₂ : List Char) (i : Nat) (best : Int),
      lastIndexOfAux c fromIdx (l₁ ++ l₂) i best
        = lastIndexOfAux c fromIdx l₂ (i + l₁.length)
            (lastIndexOfAux c fromIdx l₁ i best) := by
  intro l₁
  induction l₁ with
  | nil => intro l₂ i best; simp [lastIndexOfAux]
  | cons x xs ih =>
    intro l₂ i best
    by_cases hi : fromIdx < i
    · rw [List.cons_append, lastIndexOfAux, if_pos hi]
      rw [lastIndexOfAux, if_pos hi]
      rw [lastIndexOfAux_exit c fromIdx l₂ _ best
        (by simp only [List.length_cons]; omega)]
    · rw [List.cons_append, lastIndexOfAux, if_neg hi]
      rw [ih l₂ (i + 1) _]
      rw [lastIndexOfAux, if_neg hi]
      have hlen : i + 1 + xs.length = i + (x :: xs).length := by
        simp only [List.length_cons]
        omega
      rw [hlen]

theorem lastIndexOfFrom_not_mem (c : Char) (fromIdx : Nat) (l : List Char)
    (h : c ∉ l) : lastIndexOfFrom c fromIdx l = -1 :=
  lastIndexOfAux_not_mem c fromIdx l 0 (-1) h

theorem lastIndexOfFrom_append_single (c : Char) (fromIdx : Nat)
    (A B : List Char) (hA : c ∉ A) (hB : c ∉ B) (hlen : A.length ≤ fromIdx) :
    lastIndexOfFrom c fromIdx (A ++ c :: B) = (A.length : Int) := by
  rw [lastIndexOfFrom, lastIndexOfAux_append,
    lastIndexOfAux_not_mem c fromIdx A 0 (-1) hA]
  rw [lastIndexOfAux]
  rw [if_neg (by omega : ¬ fromIdx < 0 + A.length)]
  rw [if_pos rfl]
  rw [lastIndexOfAux_not_mem c fromIdx B _ _ hB]
  simp

theorem char_not_mem_replicate (c a : Char) (h : c ≠ a) (m : Nat) :
    c ∉ List.replicate m a := by
  intro hmem
  exact h (List.mem_replicate.mp hmem).2

theorem splitIndexOf_no_boundary (remaining : List Char) (n : Nat)
    (h1 : ('\n') ∉ remaining) (h2 : (' ') ∉ remaining) :
    splitIndexOf remaining n = n := by
  rw [splitIndexOf, lastIndexOfFrom_not_mem _ _ _ h1,
    lastIndexOfFrom_not_mem _ _ _ h2]
  rw [if_neg (by omega), if_neg (by omega)]

theorem splitIndexOf_pos (remaining : List Char) (n : Nat) (hn : 0 < n) :
    0 < splitIndexOf remaining n := by
  rw [splitIndexOf]
  by_cases h1 : 5 * lastIndexOfFrom ('\n') n remaining > 4 * (n : Int)
  · rw [if_pos h1]; omega
  · rw [if_neg h1]
    by_cases h2 : 5 * lastIndexOfFrom (' ') n remaining > 4 * (n : Int)
    · rw [if_pos h2]; omega
    · rw [if_neg h2]; exact hn

theorem splitIndexOf_le (remaining : List Char) (n : Nat) :
    splitIndexOf remaining n ≤ n + 1 := by
  have hnl := lastIndexOfFrom_le ('\n') n remaining
  have hsp := lastIndexOfFrom_le (' ') n remaining
  rw [splitIndexOf]
  by_cases h1 : 5 * lastIndexOfFrom ('\n') n remaining > 4 * (n : Int)
  · rw [if_pos h1]; omega
  · rw [if_neg h1]
    by_cases h2 : 5 * lastIndexOfFrom (' ') n remaining > 4 * (n : Int)
    · rw [if_pos h2]; omega
    · rw [if_neg h2]; omega

theorem splitGo_flatten (n : Nat) (hn : 0 < n) (remaining : List Char) :
    (splitGo n remaining).flatten = remaining := by
  rw [splitGo]
  by_cases h0 : remaining.length = 0
  · rw [dif_pos h0]
    simp [List.length_eq_zero.mp h0]
  · rw [dif_neg h0]
    by_cases hle : remaining.length ≤ n
    · rw [dif_pos hle]; simp
    · rw [dif_neg hle]
      rw [dif_neg (Nat.pos_iff_ne_zero.mp (splitIndexOf_pos remaining n hn))]
      rw [List.flatten_cons,
        splitGo_flatten n hn (remaining.drop (splitIndexOf remaining n))]
      exact List.take_append_drop _ _
termination_by remaining.length
decreasing_by
  have hpos := splitIndexOf_pos remaining n hn
  simp_wf
  omega

/-- C5.  For every captured text and every chunk bound `n + 1 ≥ 1`, the
concatenation, in delivery order, of the chunks `splitMessage` produces is
exactly the captured text: nothing dropped, duplicated, or reordered. -/
theorem splitMessage_flatten_roundtrip (text : List Char) (n : Nat) :
    (splitMessage text (n + 1)).flatten = text := by
  rw [splitMessage]
  by_cases h : text.length ≤ n + 1
  · rw [if_pos h]; simp
  · rw [if_neg h]
    exact splitGo_flatten (n + 1) (Nat.succ_pos n) text

theorem splitGo_chunk_le (n : Nat) (remaining : List Char) :
    ∀ ch ∈ splitGo n remaining, ch.length ≤ n + 1 := by
  intro ch hch
  rw [splitGo] at hch
  by_cases h0 : remaining.length = 0
  · rw [dif_pos h0] at hch
    simp at hch
  · rw [dif_neg h0] at hch
    by_cases hle : remaining.length ≤ n
    · rw [dif_pos hle] at hch
      simp at hch
      rw [hch]
      omega
    · rw [dif_neg hle] at hch
      by_cases hz : splitIndexOf remaining n = 0
      · rw [dif_pos hz] at hch
        simp at hch
      · rw [dif_neg hz] at hch
        rcases List.mem_cons.mp hch with h | h
        · rw [h, List.length_take]
          have := splitIndexOf_le remaining n
          omega
        · exact splitGo_chunk_le n (remaining.drop (splitIndexOf remaining n)) ch h
termination_by remaining.length
decreasing_by
  simp_wf
  omega

theorem splitGo_replicate_step (m : Nat) (hm : 5000 < m) :
    splitGo 5000 (List.replicate m ('a'))
      = List.replicate 5000 ('a') :: splitGo 5000 (List.replicate (m - 5000) ('a')) := by
  have hsi : splitIndexOf (List.replicate m ('a')) 5000 = 5000 :=
    splitIndexOf_no_boundary _ _
      (char_not_mem_replicate _ _ (by decide) m)
      (char_not_mem_replicate _ _ (by decide) m)
  rw [splitGo]
  rw [dif_neg (by simp only [List.length_replicate]; omega :
    ¬ (List.replicate m ('a')).length = 0)]
  rw [dif_neg (by simp only [List.length_replicate]; omega :
    ¬ (List.replicate m ('a')).length ≤ 5000)]
  rw [hsi]
  rw [dif_neg (by norm_num : ¬ (5000 : Nat) = 0)]
  rw [List.take_replicate, List.drop_replicate]
  rw [Nat.min_eq_left (by omega)]

theorem splitGo_replicate_small (m : Nat) (h0 : m ≠ 0) (hm : m ≤ 5000) :
    splitGo 5000 (List.replicate m ('a')) = [List.replicate m ('a')] := by
  rw [splitGo]
  rw [dif_neg (by simp only [List.length_replicate]; omega :
    ¬ (List.replicate m ('a')).length = 0)]
  rw [dif_pos (by simp only [List.length_replicate]; omega :
    (List.replicate m ('a')).length ≤ 5000)]

theorem splitMessage_replicate_12000 :
    splitMessage (List.replicate 12000 ('a')) 5000
      = [List.replicate 5000 ('a'), List.replicate 5000 ('a'),
         List.replicate 2000 ('a')] := by
  rw [splitMessage]
  rw [if_neg (by simp only [List.length_replicate]; omega :
    ¬ (List.replicate 12000 ('a') : List Char).length ≤ 5000)]
  rw [splitGo_replicate_step 12000 (by norm_num)]
  norm_num
  rw [splitGo_replicate_step 7000 (by norm_num)]
  norm_num
  rw [splitGo_replicate_small 2000 (by norm_num) (by norm_num)]

theorem splitMessage_newline_4200_head :
    (splitMessage (List.replicate 4200 ('a') ++ ('\n') :: List.replicate 7799 ('a'))
        5000).head?
      = some (List.replicate 4200 ('a') ++ [('\n')]) := by
  have hlen : (List.replicate 4200 ('a') ++ ('\n') :: List.replicate 7799 ('a')).length
      = 12000 := by
    simp only [List.length_append, List.length_replicate, List.length_cons]
  have hnl : lastIndexOfFrom ('\n') 5000
      (List.replicate 4200 ('a') ++ ('\n') :: List.replicate 7799 ('a')) = 4200 := by
    have h := lastIndexOfFrom_append_single ('\n') 5000
      (List.replicate 4200 ('a')) (List.replicate 7799 ('a'))
      (char_not_mem_replicate _ _ (by decide) 4200)
      (char_not_mem_replicate _ _ (by decide) 7799)
      (by rw [List.length_replicate]; omega)
    rw [List.length_replicate] at h
    exact_mod_cast h
  have hsi : splitIndexOf
      (List.replicate 4200 ('a') ++ ('\n') :: List.replicate 7799 ('a')) 5000
      = 4201 := by
    rw [splitIndexOf, hnl]
    rw [if_pos (by norm_num)]
    rfl
  have htake : (List.replicate 4200 ('a') ++ ('\n') :: List.replicate 7799 ('a')).take 4201
      = List.replicate 4200 ('a') ++ [('\n')] := by
    rw [List.take_append_eq_append_take, List.take_replicate, List.length_replicate]
    norm_num
  rw [splitMessage]
  rw [if_neg (by rw [hlen]; norm_num)]
  rw [splitGo]
  rw [dif_neg (by rw [hlen]; norm_num)]
  rw [dif_neg (by rw [hlen]; norm_num)]
  rw [hsi]
  rw [dif_neg (by norm_num : ¬ (4201 : Nat) = 0)]
  rw [List.head?_cons, htake]

/-- C7, counterexample to the claim as stated.  With the 5000-character
bound and a newline at index 5000 (the 6001-character text below),
`lastIndexOf('\n', 5000)` finds the newline at exactly index 5000, the split
lands at 5001, and the first chunk is 5001 characters long — one more than
the bound — so `splitMessage` does not produce chunks bounded by the chunk
bound. -/
theorem splitMessage_chunk_exceeds_bound :
    (splitMessage (List.replicate 5000 ('a') ++ ('\n') :: List.replicate 1000 ('a'))
        5000).all (fun ch => decide (ch.length ≤ 5000)) = false
    ∧ (splitMessage (List.replicate 5000 ('a') ++ ('\n') :: List.replicate 1000 ('a'))
        5000).head?
      = some (List.replicate 5000 ('a') ++ [('\n')]) := by
  have hlen : (List.replicate 5000 ('a') ++ ('\n') :: List.replicate 1000 ('a')).length
      = 6001 := by
    simp only [List.length_append, List.length_replicate, List.length_cons]
  have hnl : lastIndexOfFrom ('\n') 5000
      (List.replicate 5000 ('a') ++ ('\n') :: List.replicate 1000 ('a')) = 5000 := by
    have h := lastIndexOfFrom_append_single ('\n') 5000
      (List.replicate 5000 ('a')) (List.replicate 1000 ('a'))
      (char_not_mem_replicate _ _ (by decide) 5000)
      (char_not_mem_replicate _ _ (by decide) 1000)
      (by rw [List.length_replicate])
    rw [List.length_replicate] at h
    exact_mod_cast h
  have hsi : splitIndexOf
      (List.replicate 5000 ('a') ++ ('\n') :: List.replicate 1000 ('a')) 5000
      = 5001 := by
    rw [splitIndexOf, hnl]
    rw [if_pos (by norm_num)]
    rfl
  have htake : (List.replicate 5000 ('a') ++ ('\n') :: List.replicate 1000 ('a')).take 5001
      = List.replicate 5000 ('a') ++ [('\n')] := by
    rw [List.take_append_eq_append_take, List.take_replicate, List.length_replicate]
    norm_num
  have hdrop : (List.replicate 5000 ('a') ++ ('\n') :: List.replicate 1000 ('a')).drop 5001
      = List.replicate 1000 ('a') := by
    rw [List.drop_append_eq_append_drop, List.drop_replicate, List.length_replicate]
    norm_num
  have hfull : splitMessage
      (List.replicate 5000 ('a') ++ ('\n') :: List.replicate 1000 ('a')) 5000
      = [List.replicate 5000 ('a') ++ [('\n')], List.replicate 1000 ('a')] := by
    rw [splitMessage]
    rw [if_neg (by rw [hlen]; norm_num)]
    rw [splitGo]
    rw [dif_neg (by rw [hlen]; norm_num)]
    rw [dif_neg (by rw [hlen]; norm_num)]
    rw [hsi]
    rw [dif_neg (by norm_num : ¬ (5001 : Nat) = 0)]
    rw [htake, hdrop]
    rw [splitGo_replicate_small 1000 (by norm_num) (by norm_num)]
  constructor
  · rw [hfull]
    simp only [List.all_cons, List.all_nil, List.length_append,
      List.length_replicate, List.length_cons]
    decide
  · rw [hfull]
    rfl

/-- C7, amended.  `splitMessage` produces chunks of length at most one more
than the bound (the bound is exceeded by exactly one character only when a
newline or space sits exactly at index `bound`, because `lastIndexOf(c, i)`
may return `i` itself); the claim's concrete cases hold as stated: a
12000-character text with no boundary character splits exactly at 5000
(chunks of 5000, 5000 and 2000 characters), and a newline at index 4200
yields a first chunk ending at 4201. -/
theorem splitMessage_size_bounded_amended :
    (∀ (text : List Char) (n : Nat),
        (splitMessage text (n + 1)).all (fun ch => decide (ch.length ≤ n + 2)) = true)
    ∧ splitMessage (List.replicate 12000 ('a')) 5000
        = [List.replicate 5000 ('a'), List.replicate 5000 ('a'),
           List.replicate 2000 ('a')]
    ∧ (splitMessage (List.replicate 4200 ('a') ++ ('\n') :: List.replicate 7799 ('a'))
          5000).head?
        = some (List.replicate 4200 ('a') ++ [('\n')]) := by
  refine ⟨?_, splitMessage_replicate_12000, splitMessage_newline_4200_head⟩
  intro text n
  rw [List.all_eq_true]
  intro ch hch
  rw [decide_eq_true_eq]
  rw [splitMessage] at hch
  by_cases h : text.length ≤ n + 1
  · rw [if_pos h] at hch
    simp at hch
    rw [hch]
    omega
  · rw [if_neg h] at hch
    have := splitGo_chunk_le (n + 1) text ch hch
    omega

/-- C10.  `send` never throws to its caller: on every payload — including
the two exception-raising shapes, malformed JSON and non-object JSON — the
result is a normal return; a raised exception is caught inside `send` and
only logged, leaving the writer state untouched. -/
theorem writer_send_never_throws (w : WriterState) (p : WsPayload)
    (timeDue deliveryFails : Bool) :
    (send w p timeDue deliveryFails).isOk = true
    ∧ send w WsPayload.malformed timeDue deliveryFails = Except.ok w
    ∧ send w WsPayload.nullJson timeDue deliveryFails = Except.ok w := by
  refine ⟨?_, rfl, rfl⟩
  cases p <;> rfl

end FeishuClaude
